import Mathlib

/-!
Verification of the host-inspector script (`script.py`).

The script is a flat collection of platform-probing functions.  Each one is
embedded here as a pure Lean function; the ambient operating-system state
(results of `os.cpu_count()`, contents of `/proc/cpuinfo` and `/proc/meminfo`,
`os.sysconf` values, `os.stat` results, subprocess output) is passed in
explicitly as parameters.  Python strings are modelled as lists of characters
(`PyStr`), Python `None`-or-int results as `Option Int`, and Python
exceptions as `Except PyExn`.
-/

/-- Python strings, modelled as lists of characters. -/
abbrev PyStr := List Char

/-- The whitespace characters recognised by Python's `str.strip` / `str.split`. -/
def pyIsSpace (c : Char) : Bool :=
  c = ' ' ∨ c = '\t' ∨ c = '\n' ∨ c = '\r' ∨ c = '\x0b' ∨ c = '\x0c'

/-- Python `str.lstrip()`. -/
def pyLStrip (s : PyStr) : PyStr := s.dropWhile pyIsSpace

/-- Python `str.rstrip()`. -/
def pyRStrip (s : PyStr) : PyStr := (s.reverse.dropWhile pyIsSpace).reverse

/-- Python `str.strip()`. -/
def pyStrip (s : PyStr) : PyStr := pyRStrip (pyLStrip s)

/-- Python `str.startswith(pat)`; first argument is the pattern. -/
def pyStartsWith : PyStr → PyStr → Bool
  | [], _ => true
  | _ :: _, [] => false
  | a :: as, b :: bs => a = b && pyStartsWith as bs

/-- Python `str.split()` with no argument: split on runs of whitespace,
dropping empty fields. -/
def pySplit (s : PyStr) : List PyStr :=
  (s.splitOnP pyIsSpace).filter (fun w => w ≠ [])

/-- Python `str.split(":", 1)`: split at the first colon only.  Returns
`none` when the string has no colon, in which case indexing `[1]` into the
one-element split result raises `IndexError` in the source. -/
def splitColon1 (s : PyStr) : Option (PyStr × PyStr) :=
  if (s.any (fun c => c = ':')) then
    some (s.takeWhile (fun c => c ≠ ':'), (s.dropWhile (fun c => c ≠ ':')).tail)
  else
    none

/-- Python `str.lower()` (ASCII behaviour suffices for the unit suffixes). -/
def pyLower (s : PyStr) : PyStr := s.map Char.toLower

/-- Digit run to a natural number, `none` on empty or non-digit input. -/
def pyDigits (s : PyStr) : Option Nat :=
  if s ≠ [] ∧ s.all Char.isDigit then
    some (s.foldl (fun n c => n * 10 + c.toNat - '0'.toNat) 0)
  else
    none

/-- Python `int(str)`: optional surrounding whitespace, optional sign, a
digit run; `none` models a raised `ValueError`. -/
def pyInt (s : PyStr) : Option Int :=
  match pyStrip s with
  | '-' :: ds => (pyDigits ds).map (fun n => -(n : Int))
  | '+' :: ds => (pyDigits ds).map (fun n => (n : Int))
  | ds => (pyDigits ds).map (fun n => (n : Int))

/-- Python exceptions that the modelled code can raise. -/
inductive PyExn where
  | valueError
  | runtimeError (msg : String)
  | notImplementedError (msg : String)
  deriving Repr, DecidableEq

deriving instance DecidableEq for Except

/-! ## CPU inspector -/

/-- Embeds `get_logical_cpu_count`.  The result of `os.cpu_count()` is the
parameter: `none` models both `None` and a non-`int` value. -/
def get_logical_cpu_count (osCpuCount : Option Int) : Int :=
  match osCpuCount with
  | some count => if 0 < count then count else 1
  | none => 1

/-- Embeds `_get_physical_cpu_count_with_psutil`.  `psutilValue` is what
`psutil.cpu_count(logical=False)` returned; `none` also models an import
failure or any exception inside the `try` block. -/
def _get_physical_cpu_count_with_psutil (psutilValue : Option Int) : Option Int :=
  match psutilValue with
  | some value => if 0 < value then some value else none
  | none => none

/-- The `isinstance(value, int) and value > 0` checks of
`get_physical_cpu_count`. -/
def checkPosInt (value : Option Int) : Option Int :=
  match value with
  | some v => if 0 < v then some v else none
  | none => none

/-- Embeds `get_physical_cpu_count`.  The platform-specific helpers
`_get_physical_cpu_count_windows` / `_get_physical_cpu_count_linux` are
environment probes, so their results are passed as `winStep` / `linuxStep`. -/
def get_physical_cpu_count (psutilValue : Option Int) (system : String)
    (winStep linuxStep : Option Int) (osCpuCount : Option Int) : Int :=
  match checkPosInt (_get_physical_cpu_count_with_psutil psutilValue) with
  | some value => value
  | none =>
    match checkPosInt (if system = "Windows" then winStep
        else if system = "Linux" then linuxStep else none) with
    | some v => v
    | none => get_logical_cpu_count osCpuCount

/-! ## Table renderer -/

/-- Python `str.ljust(w)`. -/
def pyLjust (s : PyStr) (w : Nat) : PyStr := s ++ List.replicate (w - s.length) ' '

/-- The `col1_width` computation of `table_lines`:
`max([len(header[0]) if header else 0] + [len(k) for k, _ in rows])`. -/
def col1_width (rows : List (PyStr × PyStr)) (header : Option (PyStr × PyStr)) : Nat :=
  ((match header with | some h => h.1.length | none => 0) ::
    rows.map (fun r => r.1.length)).foldl max 0

/-- The `col2_width` computation of `table_lines`. -/
def col2_width (rows : List (PyStr × PyStr)) (header : Option (PyStr × PyStr)) : Nat :=
  ((match header with | some h => h.2.length | none => 0) ::
    rows.map (fun r => r.2.length)).foldl max 0

/-- The inner `sep(char)` helper of `table_lines`:
`f"+-{char * col1_width}-+-{char * col2_width}-+"`. -/
def sepLine (c : Char) (w1 w2 : Nat) : PyStr :=
  "+-".toList ++ List.replicate w1 c ++ "-+-".toList ++ List.replicate w2 c ++ "-+".toList

/-- A data or header row of `table_lines`:
`f"| {key.ljust(col1_width)} | {value.ljust(col2_width)} |"`. -/
def cellRow (w1 w2 : Nat) (k v : PyStr) : PyStr :=
  "| ".toList ++ pyLjust k w1 ++ " | ".toList ++ pyLjust v w2 ++ " |".toList

/-- Embeds `table_lines`. -/
def table_lines (rows : List (PyStr × PyStr))
    (header : Option (PyStr × PyStr)) : List PyStr :=
  [sepLine '-' (col1_width rows header) (col2_width rows header)] ++
  (match header with
   | some h =>
     [cellRow (col1_width rows header) (col2_width rows header) h.1 h.2,
      sepLine '=' (col1_width rows header) (col2_width rows header)]
   | none => []) ++
  rows.map (fun r => cellRow (col1_width rows header) (col2_width rows header) r.1 r.2) ++
  [sepLine '-' (col1_width rows header) (col2_width rows header)]

/-- The default header `("Property", "Value")`. -/
def defaultHeader : Option (PyStr × PyStr) := some ("Property".toList, "Value".toList)

/-- The end-to-end fixture rows of the spec's scenario. -/
def testRows : List (PyStr × PyStr) :=
  [("Operating system".toList, "Test OS".toList),
   ("Physical cores".toList, "4".toList),
   ("Logical cores".toList, "8".toList)]

/-- Parse one rendered data line back into its two cells: the cells of the
fixed-width columns sit between the `|` separators, at positions `[2, 2+w1)`
and `[w1+5, w1+5+w2)`; the padding is trimmed away. -/
def parseDataLine (w1 w2 : Nat) (line : PyStr) : PyStr × PyStr :=
  (pyStrip ((line.drop 2).take w1), pyStrip ((line.drop (w1 + 5)).take w2))

/-! ## OS install date (Linux) -/

/-- The fixed ordered candidate path list of `_get_linux_install_datetime`. -/
def candidate_paths : List String :=
  ["/var/log/installer/syslog", "/var/log/anaconda/anaconda.log",
   "/var/log/installer", "/etc"]

/-- Embeds `_get_linux_install_datetime`.  `stat` maps a path to its
modification timestamp (an epoch value; `none` models a missing path or any
`os.stat` failure, which the source catches and skips).  Python's
`min(timestamps)` over a nonempty list is a left fold of `min`. -/
def _get_linux_install_datetime (stat : String → Option Int) : Option Int :=
  match candidate_paths.filterMap stat with
  | [] => none
  | t :: ts => some (ts.foldl min t)

/-- The loop of `_unique_ordered`: `seen` is the set of already-emitted
values (membership in a Python `set` is modelled as list membership), and the
result list is built in traversal order. -/
def uniqueGo (seen : List PyStr) : List PyStr → List PyStr
  | [] => []
  | item :: rest =>
    if pyStrip item = [] then uniqueGo seen rest
    else if pyStrip item ∈ seen then uniqueGo seen rest
    else pyStrip item :: uniqueGo (pyStrip item :: seen) rest

/-- Embeds `_unique_ordered`. -/
def _unique_ordered (items : List PyStr) : List PyStr := uniqueGo [] items

/-- Specification-side definition, following the spec's words: keep the
first occurrence of each distinct value, in first-seen order. -/
def specFirstSeenDedup : List PyStr → List PyStr
  | [] => []
  | a :: l => a :: specFirstSeenDedup (l.filter (fun b => b ≠ a))
termination_by l => l.length
decreasing_by
  simp_wf
  have h := List.length_filter_le (fun b => !decide (b = item)) rest
  omega

/-- Specification-side definition, following the spec's words: the final GPU
name list is the stripped, non-empty candidate values, de-duplicated while
preserving first-seen order. -/
def specGpuNameList (items : List PyStr) : List PyStr :=
  specFirstSeenDedup ((items.map pyStrip).filter (fun v => v ≠ []))

/-- Embeds `_get_gpu_names_windows`: the candidate names gathered by its two
fallback steps are the parameter, and the function returns
`_unique_ordered(names)`. -/
def _get_gpu_names_windows (names : List PyStr) : List PyStr := _unique_ordered names

/-- Embeds `_get_gpu_names_linux`: the candidate names gathered by its three
fallback steps are the parameter, and the function returns
`_unique_ordered(names)`. -/
def _get_gpu_names_linux (names : List PyStr) : List PyStr := _unique_ordered names

/-- Embeds `get_gpu_names`. -/
def get_gpu_names (system : String) (winNames linNames : List PyStr) : List PyStr :=
  if system = "Windows" then _get_gpu_names_windows winNames
  else if system = "Linux" then _get_gpu_names_linux linNames
  else []

/-! ## Memory inspector -/

/-- The `"MemTotal:"` line key. -/
def memTotalKey : PyStr := ("MemTotal:").toList

/-- The `"MemAvailable:"` line key. -/
def memAvailableKey : PyStr := ("MemAvailable:").toList

/-- The `"MemFree:"` line key. -/
def memFreeKey : PyStr := ("MemFree:").toList

/-- The unit scaling shared by the meminfo field parsers: `kb` → 1024,
`mb` → 1024², `gb` → 1024³, any unrecognised unit → 1024.  The argument is
the already-lowercased unit field. -/
def unitScale (unitStr : PyStr) : Int :=
  if unitStr = ("kb").toList then 1024
  else if unitStr = ("mb").toList then 1024 * 1024
  else if unitStr = ("gb").toList then 1024 * 1024 * 1024
  else 1024

/-- The repeated field block of the meminfo parsers:
`parts = line.split(); if len(parts) >= 3: value = int(parts[1]);
unit = parts[2].lower(); ...scale...`.  `.ok none` is the `len(parts) < 3`
case, `.error .valueError` a failing `int()`. -/
def fieldValue (l : PyStr) : Except PyExn (Option Int) :=
  match pySplit l with
  | _ :: p1 :: p2 :: _ =>
    match pyInt p1 with
    | some v => .ok (some (v * unitScale (pyLower p2)))
    | none => .error .valueError
  | _ => .ok none

/-- The `MemTotal` scanning loop of `_get_total_ram_bytes_linux`: the first
line starting with `MemTotal:` decides the result (`.ok none` models both
`break` on a short line and running off the end of the file). -/
def totalScan : List PyStr → Except PyExn (Option Int)
  | [] => .ok none
  | l :: rest =>
    if pyStartsWith memTotalKey l then fieldValue l
    else totalScan rest

/-- The `os.sysconf`-product fallback used by the RAM getters.  `none` for
either value models a raised `ValueError`/`OSError`/`AttributeError`, which
the source converts into the exception `err`. -/
def sysconfProduct (pageSize pages : Option Int) (err : PyExn) : Except PyExn Int :=
  match pageSize, pages with
  | some p, some n => .ok (p * n)
  | _, _ => .error err

/-- Embeds `_get_total_ram_bytes_linux`.  `meminfo` is the line list of
`/proc/meminfo`, `none` modelling `FileNotFoundError`. -/
def _get_total_ram_bytes_linux (meminfo : Option (List PyStr))
    (pageSize physPages : Option Int) : Except PyExn Int :=
  match meminfo with
  | some lines =>
    match totalScan lines with
    | .error e => .error e
    | .ok (some v) => .ok v
    | .ok none =>
      sysconfProduct pageSize physPages
        (.runtimeError "Unable to determine total RAM on Linux")
  | none =>
    sysconfProduct pageSize physPages
      (.runtimeError "Unable to determine total RAM on Linux")

/-- The scanning loop of `_get_free_ram_bytes_linux`: a well-formed
`MemAvailable:` line sets the available value and breaks; each well-formed
`MemFree:` line overwrites the free value and the loop continues. -/
def freeScan : List PyStr → Option Int → Option Int → Except PyExn (Option Int × Option Int)
  | [], av, fr => .ok (av, fr)
  | l :: rest, av, fr =>
    if pyStartsWith memAvailableKey l then
      match fieldValue l with
      | .error e => .error e
      | .ok (some v) => .ok (some v, fr)
      | .ok none => freeScan rest av fr
    else if pyStartsWith memFreeKey l then
      match fieldValue l with
      | .error e => .error e
      | .ok (some v) => freeScan rest av (some v)
      | .ok none => freeScan rest av fr
    else freeScan rest av fr

/-- Embeds `_get_free_ram_bytes_linux`. -/
def _get_free_ram_bytes_linux (meminfo : Option (List PyStr))
    (pageSize availPages : Option Int) : Except PyExn Int :=
  match meminfo with
  | some lines =>
    match freeScan lines none none with
    | .error e => .error e
    | .ok (some av, _) => .ok av
    | .ok (none, some fr) => .ok fr
    | .ok (none, none) =>
      sysconfProduct pageSize availPages
        (.runtimeError "Unable to determine free RAM on Linux")
  | none =>
    sysconfProduct pageSize availPages
      (.runtimeError "Unable to determine free RAM on Linux")

/-- Embeds `get_total_ram_bytes`.  The Windows FFI call is an environment
probe passed as `winResult`. -/
def get_total_ram_bytes (system : String) (winResult : Except PyExn Int)
    (meminfo : Option (List PyStr)) (pageSize physPages : Option Int) :
    Except PyExn Int :=
  if system = "Windows" then winResult
  else if system = "Linux" then _get_total_ram_bytes_linux meminfo pageSize physPages
  else sysconfProduct pageSize physPages
    (.notImplementedError ("Unsupported OS: " ++ system))

/-- Embeds `get_free_ram_bytes`. -/
def get_free_ram_bytes (system : String) (winResult : Except PyExn Int)
    (meminfo : Option (List PyStr)) (pageSize availPages : Option Int) :
    Except PyExn Int :=
  if system = "Windows" then winResult
  else if system = "Linux" then _get_free_ram_bytes_linux meminfo pageSize availPages
  else sysconfProduct pageSize availPages
    (.notImplementedError ("Unsupported OS: " ++ system))

/-! ## Physical CPU count: the Linux cpuinfo pair-counting step -/

/-- The `"physical id"` field key. -/
def physIdKey : PyStr := ("physical id").toList

/-- The `"core id"` field key. -/
def coreIdKey : PyStr := ("core id").toList

/-- Classification of one `/proc/cpuinfo` line by the loop body of
`_get_physical_cpu_count_linux`: the line is stripped; an empty result
flushes the current pair; a line starting with `physical id` / `core id`
stores the stripped text after the first colon (a missing colon makes the
`[1]` index raise `IndexError`, modelled as `err`); any other line is
ignored. -/
inductive CpuLine where
  | blank
  | phys (v : PyStr)
  | core (v : PyStr)
  | other
  | err
  deriving Repr, DecidableEq

def classifyCpuLine (raw : PyStr) : CpuLine :=
  if pyStrip raw = [] then .blank
  else if pyStartsWith physIdKey (pyStrip raw) then
    match splitColon1 (pyStrip raw) with
    | some pr => .phys (pyStrip pr.2)
    | none => .err
  else if pyStartsWith coreIdKey (pyStrip raw) then
    match splitColon1 (pyStrip raw) with
    | some pr => .core (pyStrip pr.2)
    | none => .err
  else .other

/-- The loop state of `_get_physical_cpu_count_linux`: the accumulated pair
set (a Python `set`, modelled as a duplicate-free list built with
`List.insert`) and the pending `physical_id` / `core_id` values. -/
structure CpuSt where
  pairs : List (PyStr × PyStr)
  phys : Option PyStr
  core : Option PyStr
  deriving Repr, DecidableEq

/-- A Python `set.add`: the pair list keeps one copy of each element (the
order of a Python set is irrelevant here, only membership and size are
used). -/
def setAdd (pairs : List (PyStr × PyStr)) (pc : PyStr × PyStr) :
    List (PyStr × PyStr) :=
  if pc ∈ pairs then pairs else pc :: pairs

/-- The flush performed on a blank line and at end of file:
`if physical_id is not None and core_id is not None: pairs.add(...)`. -/
def cpuFlush (st : CpuSt) : List (PyStr × PyStr) :=
  match st.phys, st.core with
  | some p, some c => setAdd st.pairs (p, c)
  | _, _ => st.pairs

/-- One iteration of the cpuinfo loop; `none` models a raised exception. -/
def stepCpuLine (st : CpuSt) (raw : PyStr) : Option CpuSt :=
  match classifyCpuLine raw with
  | .blank => some ⟨cpuFlush st, none, none⟩
  | .phys v => some ⟨st.pairs, some v, st.core⟩
  | .core v => some ⟨st.pairs, st.phys, some v⟩
  | .other => some st
  | .err => none

/-- The first step of `_get_physical_cpu_count_linux`: parse
`physical id`/`core id` pairs from the cpuinfo lines and return the number
of distinct pairs.  `none` models both an exception inside the `try` and an
empty pair set — in either case control passes to the next fallback. -/
def linuxCpuinfoPairsStep (lines : List PyStr) : Option Nat :=
  match lines.foldlM stepCpuLine ⟨[], none, none⟩ with
  | none => none
  | some st =>
    if cpuFlush st = [] then none else some (cpuFlush st).length

/-- The `physical id` value carried by a classified line, if any. -/
def physVal : CpuLine → Option PyStr
  | .phys v => some v
  | _ => none

/-- The `core id` value carried by a classified line, if any. -/
def coreVal : CpuLine → Option PyStr
  | .core v => some v
  | _ => none

/-- The lines `b` form one processor block yielding the pair `pc`: no line
is blank or raises, and exactly one line carries each of the two fields,
with the given values. -/
def blockYields (b : List PyStr) (pc : PyStr × PyStr) : Prop :=
  (b.map classifyCpuLine).filterMap physVal = [pc.1] ∧
  (b.map classifyCpuLine).filterMap coreVal = [pc.2] ∧
  ∀ l ∈ b, classifyCpuLine l ≠ .blank ∧ classifyCpuLine l ≠ .err

/-- Processor blocks joined by single blank lines, the shape of
`/proc/cpuinfo`. -/
def joinBlocks : List (List PyStr) → List PyStr
  | [] => []
  | [b] => b
  | b :: b2 :: bs => b ++ ([] : PyStr) :: joinBlocks (b2 :: bs)

/-- The last value of `l`, or the default `d` when `l` is empty; captures
how repeated field lines overwrite the pending value. -/
def lastOr (l : List PyStr) (d : Option PyStr) : Option PyStr :=
  match l.getLast? with
  | some v => some v
  | none => d

/-! ## Theorems -/

/-- C1: `get_logical_cpu_count` always returns at least 1 (and exactly 1 when
the OS reports nothing or a non-positive value), and `get_physical_cpu_count`
always returns at least 1 and equals `get_logical_cpu_count` when both the
psutil step and the platform-specific step yield no result. -/
theorem C1_cpu_counts :
    (∀ o : Option Int, 1 ≤ get_logical_cpu_count o) ∧
    (∀ o : Option Int, (o = none ∨ ∃ v, o = some v ∧ v ≤ 0) →
      get_logical_cpu_count o = 1) ∧
    (∀ (ps : Option Int) (sys : String) (win lin o : Option Int),
      1 ≤ get_physical_cpu_count ps sys win lin o) ∧
    (∀ (ps : Option Int) (sys : String) (win lin o : Option Int),
      _get_physical_cpu_count_with_psutil ps = none →
      (sys = "Windows" → win = none) →
      (sys = "Linux" → lin = none) →
      get_physical_cpu_count ps sys win lin o = get_logical_cpu_count o) := by
  have hlog : ∀ o : Option Int, 1 ≤ get_logical_cpu_count o := by
    intro o
    cases o with
    | none => simp [get_logical_cpu_count]
    | some v =>
      by_cases h : 0 < v
      · simp only [get_logical_cpu_count, if_pos h]; omega
      · simp [get_logical_cpu_count, h]
  have hchk : ∀ (x : Option Int) (v : Int), checkPosInt x = some v → 0 < v := by
    intro x v h
    cases x with
    | none => exact absurd h (by simp [checkPosInt])
    | some w =>
      by_cases hw : 0 < w
      · simp only [checkPosInt, if_pos hw] at h
        injection h with h
        omega
      · simp [checkPosInt, hw] at h
  refine ⟨hlog, ?_, ?_, ?_⟩
  · rintro o (rfl | ⟨v, rfl, hv⟩)
    · rfl
    · have : ¬ 0 < v := by omega
      simp [get_logical_cpu_count, this]
  · intro ps sys win lin o
    unfold get_physical_cpu_count
    cases hps : checkPosInt (_get_physical_cpu_count_with_psutil ps) with
    | some v =>
      have h1 := hchk _ _ hps
      show 1 ≤ v
      omega
    | none =>
      cases hplat : checkPosInt (if sys = "Windows" then win
          else if sys = "Linux" then lin else none) with
      | some v =>
        have h1 := hchk _ _ hplat
        show 1 ≤ v
        omega
      | none => exact hlog o
  · intro ps sys win lin o hps hwin hlin
    unfold get_physical_cpu_count
    rw [hps]
    have hval : (if sys = "Windows" then win
        else if sys = "Linux" then lin else none) = none := by
      by_cases h1 : sys = "Windows"
      · simp [h1, hwin h1]
      · by_cases h2 : sys = "Linux"
        · simp [h1, h2, hlin h2]
        · simp [h1, h2]
    rw [hval]
    rfl

/-- Witness for C1 at concrete inputs. -/
theorem C1_cpu_counts_witness :
    get_logical_cpu_count (some 0) = 1 ∧
    get_physical_cpu_count (some 0) "Darwin" none none (some 0) =
      get_logical_cpu_count (some 0) := by
  refine ⟨C1_cpu_counts.2.1 (some 0) (Or.inr ⟨0, rfl, le_refl 0⟩), ?_⟩
  exact C1_cpu_counts.2.2.2 (some 0) "Darwin" none none (some 0) rfl
    (fun h => by simp at h) (fun h => by simp at h)

/-! ### Arithmetic facts about `foldl max` and `ljust` -/

theorem foldl_max_init_le (l : List Nat) (a : Nat) : a ≤ l.foldl max a := by
  induction l generalizing a with
  | nil => exact le_refl a
  | cons b l ih => exact le_trans (le_max_left a b) (ih (max a b))

theorem le_foldl_max (l : List Nat) (a x : Nat) (hx : x ∈ l) : x ≤ l.foldl max a := by
  induction l generalizing a with
  | nil => cases hx
  | cons b l ih =>
    rcases List.mem_cons.mp hx with rfl | hx
    · exact le_trans (le_max_right a x) (foldl_max_init_le l (max a x))
    · exact ih (max a b) hx

theorem pyLjust_length (s : PyStr) (w : Nat) (h : s.length ≤ w) :
    (pyLjust s w).length = w := by
  simp [pyLjust]
  omega

theorem sepLine_length (c : Char) (w1 w2 : Nat) :
    (sepLine c w1 w2).length = w1 + w2 + 7 := by
  simp [sepLine]
  omega

theorem cellRow_length (w1 w2 : Nat) (k v : PyStr)
    (hk : k.length ≤ w1) (hv : v.length ≤ w2) :
    (cellRow w1 w2 k v).length = w1 + w2 + 7 := by
  simp [cellRow, pyLjust]
  omega

/-! ### Facts about `strip` -/

theorem dropWhile_replicate_space (n : Nat) (l : PyStr) :
    List.dropWhile pyIsSpace (List.replicate n ' ' ++ l) = List.dropWhile pyIsSpace l := by
  induction n with
  | zero => rfl
  | succ n ih =>
    simp only [List.replicate_succ, List.cons_append, List.dropWhile_cons]
    have : pyIsSpace ' ' = true := by decide
    rw [this]
    simpa using ih

theorem pyRStrip_append_spaces (s : PyStr) (n : Nat) :
    pyRStrip (s ++ List.replicate n ' ') = pyRStrip s := by
  unfold pyRStrip
  rw [List.reverse_append, List.reverse_replicate, dropWhile_replicate_space]

theorem pyLStrip_sublist (s : PyStr) : List.Sublist (pyLStrip s) s :=
  List.dropWhile_sublist _

theorem pyRStrip_sublist (s : PyStr) : List.Sublist (pyRStrip s) s := by
  have h := List.dropWhile_sublist (l := s.reverse) (p := pyIsSpace)
  have h2 := h.reverse
  rwa [List.reverse_reverse] at h2

theorem pyStrip_sublist (s : PyStr) : List.Sublist (pyStrip s) s :=
  (pyRStrip_sublist (pyLStrip s)).trans (pyLStrip_sublist s)

theorem pyLStrip_eq_of_strip_eq {s : PyStr} (h : pyStrip s = s) : pyLStrip s = s := by
  have h1 : List.Sublist s (pyLStrip s) := by
    have := pyRStrip_sublist (pyLStrip s)
    rwa [show pyRStrip (pyLStrip s) = s from h] at this
  exact (pyLStrip_sublist s).antisymm h1

theorem pyRStrip_eq_of_strip_eq {s : PyStr} (h : pyStrip s = s) : pyRStrip s = s := by
  have hl := pyLStrip_eq_of_strip_eq h
  unfold pyStrip at h
  rwa [hl] at h

theorem head_not_space_of_lstrip_eq {a : Char} {t : PyStr}
    (h : pyLStrip (a :: t) = a :: t) : pyIsSpace a = false := by
  by_contra hsp
  have hsp' : pyIsSpace a = true := by
    cases hval : pyIsSpace a
    · exact absurd hval hsp
    · rfl
  unfold pyLStrip at h
  rw [List.dropWhile_cons, hsp'] at h
  simp only [if_true] at h
  have hle : (List.dropWhile pyIsSpace t).length ≤ t.length :=
    (List.dropWhile_sublist _).length_le
  have : (List.dropWhile pyIsSpace t).length = t.length + 1 := by
    rw [h]; rfl
  omega

theorem pyLStrip_cons_append {a : Char} (t u : PyStr) (ha : pyIsSpace a = false) :
    pyLStrip ((a :: t) ++ u) = (a :: t) ++ u := by
  unfold pyLStrip
  rw [List.cons_append, List.dropWhile_cons, ha]
  simp

theorem dropWhile_replicate_space_nil (n : Nat) :
    List.dropWhile pyIsSpace (List.replicate n ' ') = [] := by
  have := dropWhile_replicate_space n []
  simpa using this

/-- Stripping undoes left-justification for already-stripped strings. -/
theorem pyStrip_pyLjust (k : PyStr) (w : Nat) (hk : pyStrip k = k) :
    pyStrip (pyLjust k w) = k := by
  cases k with
  | nil =>
    unfold pyLjust pyStrip pyLStrip
    rw [List.nil_append, dropWhile_replicate_space_nil]
    rfl
  | cons a t =>
    have hl : pyLStrip (a :: t) = a :: t := pyLStrip_eq_of_strip_eq hk
    have ha : pyIsSpace a = false := head_not_space_of_lstrip_eq hl
    unfold pyLjust pyStrip
    rw [pyLStrip_cons_append _ _ ha, pyRStrip_append_spaces]
    exact pyRStrip_eq_of_strip_eq hk

theorem fst_length_le_col1_width (rows : List (PyStr × PyStr))
    (header : Option (PyStr × PyStr)) (r : PyStr × PyStr) (hr : r ∈ rows) :
    r.1.length ≤ col1_width rows header := by
  apply le_foldl_max
  exact List.mem_cons_of_mem _ (List.mem_map_of_mem _ hr)

theorem snd_length_le_col2_width (rows : List (PyStr × PyStr))
    (header : Option (PyStr × PyStr)) (r : PyStr × PyStr) (hr : r ∈ rows) :
    r.2.length ≤ col2_width rows header := by
  apply le_foldl_max
  exact List.mem_cons_of_mem _ (List.mem_map_of_mem _ hr)

theorem header_fst_length_le_col1_width (rows : List (PyStr × PyStr))
    (h : PyStr × PyStr) :
    h.1.length ≤ col1_width rows (some h) := by
  apply le_foldl_max
  exact List.mem_cons_self _ _

theorem header_snd_length_le_col2_width (rows : List (PyStr × PyStr))
    (h : PyStr × PyStr) :
    h.2.length ≤ col2_width rows (some h) := by
  apply le_foldl_max
  exact List.mem_cons_self _ _

/-- C10: every line emitted by `table_lines` has the same length,
`col1_width + col2_width + 7`, for any rows list and any (possibly absent)
header. -/
theorem C10_table_lines_uniform_length (rows : List (PyStr × PyStr))
    (header : Option (PyStr × PyStr)) (line : PyStr)
    (hline : line ∈ table_lines rows header) :
    line.length = col1_width rows header + col2_width rows header + 7 := by
  unfold table_lines at hline
  rcases List.mem_append.mp hline with hl | hl
  · rcases List.mem_append.mp hl with hl | hl
    · rcases List.mem_append.mp hl with hl | hl
      · rcases List.mem_singleton.mp hl with rfl
        exact sepLine_length ..
      · cases header with
        | none => cases hl
        | some h =>
          rcases List.mem_cons.mp hl with rfl | hl
          · exact cellRow_length _ _ _ _
              (header_fst_length_le_col1_width rows h)
              (header_snd_length_le_col2_width rows h)
          · rcases List.mem_singleton.mp hl with rfl
            exact sepLine_length ..
    · rcases List.mem_map.mp hl with ⟨r, hr, rfl⟩
      exact cellRow_length _ _ _ _
        (fst_length_le_col1_width rows header r hr)
        (snd_length_le_col2_width rows header r hr)
  · rcases List.mem_singleton.mp hl with rfl
    exact sepLine_length ..

/-- Witness for C10 at a concrete table. -/
theorem C10_table_lines_uniform_length_witness :
    (("| Hi       | Ok    |").toList ∈
      table_lines [("Hi".toList, "Ok".toList)] defaultHeader) ∧
    (("| Hi       | Ok    |").toList).length =
      col1_width [("Hi".toList, "Ok".toList)] defaultHeader +
        col2_width [("Hi".toList, "Ok".toList)] defaultHeader + 7 := by
  constructor
  · decide
  · exact C10_table_lines_uniform_length _ _ _ (by decide)

/-- Counterexample to C5 as stated: the first column's width is the length of
`"Operating system"`, which is 16 characters, not 17. -/
theorem C5_counterexample :
    ¬ (col1_width testRows defaultHeader = 17) := by decide

/-- C5 (amended): on the fixture rows with the default header the rendered
table is exactly the expected seven lines, with column widths 16 and 7
(16 is the length of `"Operating system"`; the claim's value 17 was off by
one), a `=`-filled rule under the header row, and `-`-filled top and bottom
borders. -/
theorem C5_table_fixture :
    table_lines testRows defaultHeader =
      [("+------------------+---------+").toList,
       ("| Property         | Value   |").toList,
       ("+-================-+-=======-+").toList,
       ("| Operating system | Test OS |").toList,
       ("| Physical cores   | 4       |").toList,
       ("| Logical cores    | 8       |").toList,
       ("+------------------+---------+").toList] ∧
    col1_width testRows defaultHeader = 16 ∧
    col2_width testRows defaultHeader = 7 := by
  refine ⟨?_, by decide, by decide⟩
  decide

theorem parseDataLine_cellRow (w1 w2 : Nat) (k v : PyStr)
    (hk1 : k.length ≤ w1) (hv1 : v.length ≤ w2)
    (hk : pyStrip k = k) (hv : pyStrip v = v) :
    parseDataLine w1 w2 (cellRow w1 w2 k v) = (k, v) := by
  have hA : (pyLjust k w1).length = w1 := pyLjust_length _ _ hk1
  have hB : (pyLjust v w2).length = w2 := pyLjust_length _ _ hv1
  have e1 : cellRow w1 w2 k v = ("| ").toList ++
      (pyLjust k w1 ++ ((" | ").toList ++ (pyLjust v w2 ++ (" |").toList))) := by
    simp [cellRow, List.append_assoc]
  have e2 : cellRow w1 w2 k v = (("| ").toList ++ pyLjust k w1 ++ (" | ").toList) ++
      (pyLjust v w2 ++ (" |").toList) := by
    simp [cellRow, List.append_assoc]
  unfold parseDataLine
  rw [Prod.mk.injEq]
  constructor
  · rw [e1, List.drop_left' (by rfl), List.take_left' hA]
    exact pyStrip_pyLjust _ _ hk
  · rw [e2, List.drop_left' (by simp [hA]), List.take_left' hB]
    exact pyStrip_pyLjust _ _ hv

theorem table_lines_data_part (rows : List (PyStr × PyStr))
    (header : Option (PyStr × PyStr)) :
    ((table_lines rows header).drop (if header.isSome then 3 else 1)).dropLast =
      rows.map (fun r => cellRow (col1_width rows header) (col2_width rows header) r.1 r.2) := by
  cases header with
  | none =>
    show ((table_lines rows none).drop 1).dropLast = _
    simp only [table_lines, List.append_assoc, List.singleton_append, List.cons_append,
      List.nil_append, List.drop_succ_cons, List.drop_zero]
    rw [List.dropLast_concat]
  | some h =>
    show ((table_lines rows (some h)).drop 3).dropLast = _
    simp only [table_lines, List.append_assoc, List.singleton_append, List.cons_append,
      List.nil_append, List.drop_succ_cons, List.drop_zero]
    rw [List.dropLast_concat]

/-- Counterexample to C6 as stated: for a label with leading whitespace,
rendering and then parsing the data line back trims that whitespace away, so
the original string is not recovered. -/
theorem C6_counterexample :
    ¬ ((((table_lines [((" x").toList, ("y").toList)] defaultHeader).drop 3).dropLast).map
        (parseDataLine (col1_width [((" x").toList, ("y").toList)] defaultHeader)
          (col2_width [((" x").toList, ("y").toList)] defaultHeader)) =
      [((" x").toList, ("y").toList)]) := by decide

/-- C6 (amended): for rows whose labels and values carry no leading or
trailing whitespace, rendering with `table_lines` and then parsing each data
line back into its two fixed-width cells (trimming the padding) recovers
exactly the original label and value strings.  The restriction to
whitespace-trimmed cell strings is forced: trimming the padding also trims
whitespace that belonged to the original string (see the counterexample). -/
theorem C6_roundtrip (rows : List (PyStr × PyStr)) (header : Option (PyStr × PyStr))
    (hcond : ∀ r ∈ rows, pyStrip r.1 = r.1 ∧ pyStrip r.2 = r.2) :
    (((table_lines rows header).drop (if header.isSome then 3 else 1)).dropLast).map
      (parseDataLine (col1_width rows header) (col2_width rows header)) = rows := by
  rw [table_lines_data_part, List.map_map]
  have hcong : ∀ r ∈ rows,
      (parseDataLine (col1_width rows header) (col2_width rows header) ∘
        fun r => cellRow (col1_width rows header) (col2_width rows header) r.1 r.2) r = id r := by
    intro r hr
    have hk1 := fst_length_le_col1_width rows header r hr
    have hv1 := snd_length_le_col2_width rows header r hr
    have h := parseDataLine_cellRow _ _ r.1 r.2 hk1 hv1 (hcond r hr).1 (hcond r hr).2
    simpa using h
  rw [List.map_congr_left hcong, List.map_id]

/-- Witness for C6 at concrete trimmed rows. -/
theorem C6_roundtrip_witness :
    (((table_lines [(("a").toList, ("bb").toList)] defaultHeader).drop 3).dropLast).map
      (parseDataLine (col1_width [(("a").toList, ("bb").toList)] defaultHeader)
        (col2_width [(("a").toList, ("bb").toList)] defaultHeader)) =
      [(("a").toList, ("bb").toList)] := by
  have h := C6_roundtrip [(("a").toList, ("bb").toList)] defaultHeader (by decide)
  simpa using h

theorem foldl_min_mem (ts : List Int) (t : Int) : ts.foldl min t ∈ t :: ts := by
  induction ts generalizing t with
  | nil => exact List.mem_singleton.mpr rfl
  | cons b ts ih =>
    have := ih (min t b)
    rcases List.mem_cons.mp this with h | h
    · rcases min_choice t b with hm | hm
      · exact List.mem_cons.mpr (Or.inl (by rw [List.foldl_cons, h, hm]))
      · refine List.mem_cons.mpr (Or.inr (List.mem_cons.mpr (Or.inl ?_)))
        rw [List.foldl_cons, h, hm]
    · exact List.mem_cons.mpr (Or.inr (List.mem_cons.mpr (Or.inr (by rw [List.foldl_cons]; exact h))))

theorem foldl_min_le (ts : List Int) (t : Int) : ∀ x ∈ t :: ts, ts.foldl min t ≤ x := by
  induction ts generalizing t with
  | nil =>
    intro x hx
    rcases List.mem_singleton.mp hx with rfl
    exact le_refl x
  | cons b ts ih =>
    intro x hx
    have hhead := ih (min t b) (min t b) (List.mem_cons_self _ _)
    rcases List.mem_cons.mp hx with rfl | hx
    · exact le_trans hhead (min_le_left _ _)
    · rcases List.mem_cons.mp hx with rfl | hx
      · exact le_trans hhead (min_le_right _ _)
      · exact ih (min t b) x (List.mem_cons_of_mem _ hx)

/-- C7: on Linux the install-date heuristic returns the earliest modification
timestamp among the candidate paths that yielded one; a failing path is
skipped; when no candidate path yields a timestamp the result is `none`
rather than an error. -/
theorem C7_linux_install_datetime (stat : String → Option Int) :
    (_get_linux_install_datetime stat = none ↔
      ∀ p ∈ candidate_paths, stat p = none) ∧
    (∀ t : Int, _get_linux_install_datetime stat = some t →
      (∃ p ∈ candidate_paths, stat p = some t) ∧
      (∀ p u, p ∈ candidate_paths → stat p = some u → t ≤ u)) := by
  constructor
  · unfold _get_linux_install_datetime
    cases h : candidate_paths.filterMap stat with
    | nil =>
      simp only [true_iff]
      intro p hp
      cases hs : stat p with
      | none => rfl
      | some u =>
        have : u ∈ candidate_paths.filterMap stat :=
          List.mem_filterMap.mpr ⟨p, hp, hs⟩
        rw [h] at this
        cases this
    | cons t ts =>
      apply iff_of_false (by simp)
      intro hall
      have : t ∈ candidate_paths.filterMap stat := by rw [h]; exact List.mem_cons_self _ _
      rcases List.mem_filterMap.mp this with ⟨p, hp, hs⟩
      rw [hall p hp] at hs
      cases hs
  · intro t ht
    unfold _get_linux_install_datetime at ht
    cases h : candidate_paths.filterMap stat with
    | nil => rw [h] at ht; cases ht
    | cons t0 ts =>
      rw [h] at ht
      injection ht with ht
      subst ht
      constructor
      · have hm : ts.foldl min t0 ∈ candidate_paths.filterMap stat := by
          rw [h]; exact foldl_min_mem ts t0
        exact List.mem_filterMap.mp hm
      · intro p u hp hs
        have hu : u ∈ candidate_paths.filterMap stat := List.mem_filterMap.mpr ⟨p, hp, hs⟩
        rw [h] at hu
        exact foldl_min_le ts t0 u hu

/-- Witness for C7: with only `/etc` yielding a timestamp, the heuristic
returns that timestamp, which is a minimum over the candidates. -/
theorem C7_linux_install_datetime_witness :
    (∃ p ∈ candidate_paths,
      (fun q => if q = "/etc" then some (42 : Int) else none) p = some 42) ∧
    (∀ p u, p ∈ candidate_paths →
      (fun q => if q = "/etc" then some (42 : Int) else none) p = some u → 42 ≤ u) :=
  (C7_linux_install_datetime (fun q => if q = "/etc" then some (42 : Int) else none)).2
    42 (by decide)

/-! ## GPU inspector -/

theorem dropWhile_idem (p : Char → Bool) (l : PyStr) :
    List.dropWhile p (List.dropWhile p l) = List.dropWhile p l := by
  induction l with
  | nil => rfl
  | cons a t ih =>
    by_cases h : p a
    · rw [List.dropWhile_cons, if_pos h, ih]
    · rw [List.dropWhile_cons, if_neg h, List.dropWhile_cons, if_neg h]

theorem pyRStrip_cons (a : Char) (t : PyStr) :
    pyRStrip (a :: t) =
      if pyRStrip t = [] then (if pyIsSpace a then [] else [a])
      else a :: pyRStrip t := by
  unfold pyRStrip
  rw [List.reverse_cons, List.dropWhile_append]
  by_cases h : (List.dropWhile pyIsSpace t.reverse).isEmpty
  · rw [if_pos h]
    have h' : (List.dropWhile pyIsSpace t.reverse).reverse = [] := by
      rw [List.isEmpty_iff] at h
      rw [h]
      rfl
    rw [if_pos h']
    by_cases ha : pyIsSpace a
    · rw [if_pos ha]
      simp [List.dropWhile_cons, ha]
    · rw [if_neg ha]
      simp [List.dropWhile_cons, ha]
  · rw [if_neg h]
    have h' : ¬ (List.dropWhile pyIsSpace t.reverse).reverse = [] := by
      intro hc
      rw [List.isEmpty_iff] at h
      exact h (by simpa using congrArg List.reverse hc)
    rw [if_neg h']
    rw [List.reverse_append]
    rfl

theorem pyRStrip_idem (l : PyStr) : pyRStrip (pyRStrip l) = pyRStrip l := by
  unfold pyRStrip
  rw [List.reverse_reverse, dropWhile_idem]

theorem pyStrip_idem (s : PyStr) : pyStrip (pyStrip s) = pyStrip s := by
  have hu : pyLStrip (pyLStrip s) = pyLStrip s := dropWhile_idem pyIsSpace s
  cases hcase : pyLStrip s with
  | nil =>
    unfold pyStrip
    rw [hcase]
    rfl
  | cons a t =>
    rw [hcase] at hu
    have ha : pyIsSpace a = false := head_not_space_of_lstrip_eq hu
    unfold pyStrip
    rw [hcase, pyRStrip_cons, ha]
    by_cases ht : pyRStrip t = []
    · rw [if_pos ht]
      simp only [Bool.false_eq_true, if_false]
      show pyRStrip (pyLStrip [a]) = [a]
      have : pyLStrip [a] = [a] := by
        unfold pyLStrip
        rw [List.dropWhile_cons, ha]
        simp
      rw [this]
      unfold pyRStrip
      simp [List.dropWhile_cons, ha]
    · rw [if_neg ht]
      have hl : pyLStrip (a :: pyRStrip t) = a :: pyRStrip t := by
        unfold pyLStrip
        rw [List.dropWhile_cons, ha]
        simp
      show pyRStrip (pyLStrip (a :: pyRStrip t)) = a :: pyRStrip t
      rw [hl, pyRStrip_cons, pyRStrip_idem, if_neg ht]

theorem uniqueGo_nil (seen : List PyStr) : uniqueGo seen [] = [] := rfl

theorem uniqueGo_cons (seen : List PyStr) (item : PyStr) (rest : List PyStr) :
    uniqueGo seen (item :: rest) =
      if pyStrip item = [] then uniqueGo seen rest
      else if pyStrip item ∈ seen then uniqueGo seen rest
      else pyStrip item :: uniqueGo (pyStrip item :: seen) rest := rfl

theorem specFirstSeenDedup_nil : specFirstSeenDedup [] = [] := by
  rw [specFirstSeenDedup]

theorem specFirstSeenDedup_cons (a : PyStr) (l : List PyStr) :
    specFirstSeenDedup (a :: l) = a :: specFirstSeenDedup (l.filter (fun b => b ≠ a)) := by
  rw [specFirstSeenDedup]

theorem uniqueGo_eq_spec (items : List PyStr) : ∀ seen : List PyStr,
    uniqueGo seen items =
      specFirstSeenDedup (((items.map pyStrip).filter (fun v => v ≠ [])).filter
        (fun v => v ∉ seen)) := by
  induction items with
  | nil => intro seen; simp [uniqueGo_nil, specFirstSeenDedup_nil]
  | cons item rest ih =>
    intro seen
    rw [uniqueGo_cons]
    by_cases h0 : pyStrip item = []
    · rw [if_pos h0, ih seen]
      simp only [List.map_cons, List.filter_cons]
      rw [if_neg (by simpa using h0)]
    · rw [if_neg h0]
      by_cases h1 : pyStrip item ∈ seen
      · rw [if_pos h1, ih seen]
        simp only [List.map_cons, List.filter_cons]
        rw [if_pos (by simpa using h0), List.filter_cons, if_neg (by simpa using h1)]
      · rw [if_neg h1, ih (pyStrip item :: seen)]
        simp only [List.map_cons, List.filter_cons]
        rw [if_pos (by simpa using h0), List.filter_cons, if_pos (by simpa using h1)]
        rw [specFirstSeenDedup_cons]
        congr 1
        conv_rhs => rw [List.filter_filter]
        apply congrArg
        apply List.filter_congr
        intro a ha
        by_cases hstr : a = pyStrip item
        · subst hstr
          simp
        · by_cases hs : a ∈ seen <;> simp [hstr, hs]

theorem mem_uniqueGo_strip (items : List PyStr) : ∀ seen : List PyStr,
    ∀ s ∈ uniqueGo seen items, pyStrip s = s ∧ s ≠ [] := by
  induction items with
  | nil => intro seen s hs; cases hs
  | cons item rest ih =>
    intro seen s hs
    rw [uniqueGo_cons] at hs
    by_cases h0 : pyStrip item = []
    · rw [if_pos h0] at hs
      exact ih seen s hs
    · rw [if_neg h0] at hs
      by_cases h1 : pyStrip item ∈ seen
      · rw [if_pos h1] at hs
        exact ih seen s hs
      · rw [if_neg h1] at hs
        rcases List.mem_cons.mp hs with rfl | hs
        · exact ⟨pyStrip_idem item, h0⟩
        · exact ih _ s hs

theorem mem_uniqueGo_not_seen (items : List PyStr) : ∀ seen : List PyStr,
    ∀ s ∈ uniqueGo seen items, s ∉ seen := by
  induction items with
  | nil => intro seen s hs; cases hs
  | cons item rest ih =>
    intro seen s hs
    rw [uniqueGo_cons] at hs
    by_cases h0 : pyStrip item = []
    · rw [if_pos h0] at hs
      exact ih seen s hs
    · rw [if_neg h0] at hs
      by_cases h1 : pyStrip item ∈ seen
      · rw [if_pos h1] at hs
        exact ih seen s hs
      · rw [if_neg h1] at hs
        rcases List.mem_cons.mp hs with rfl | hs
        · exact h1
        · have := ih (pyStrip item :: seen) s hs
          intro hc
          exact this (List.mem_cons_of_mem _ hc)

theorem uniqueGo_nodup (items : List PyStr) : ∀ seen : List PyStr,
    (uniqueGo seen items).Nodup := by
  induction items with
  | nil => intro seen; exact List.nodup_nil
  | cons item rest ih =>
    intro seen
    rw [uniqueGo_cons]
    by_cases h0 : pyStrip item = []
    · rw [if_pos h0]
      exact ih seen
    · rw [if_neg h0]
      by_cases h1 : pyStrip item ∈ seen
      · rw [if_pos h1]
        exact ih seen
      · rw [if_neg h1]
        refine List.nodup_cons.mpr ⟨?_, ih _⟩
        intro hc
        exact mem_uniqueGo_not_seen rest (pyStrip item :: seen) _ hc
          (List.mem_cons_self _ _)

/-- C8: the de-duplicated GPU name list contains only trimmed, non-empty
strings, has no duplicates, and equals the spec-side first-seen dedup of the
stripped non-empty candidates (first-seen order); on an OS other than
Windows/Linux the result is exactly the empty list; every candidate list
produces a result (the model is total, matching the source's
catch-all fallbacks). -/
theorem C8_gpu_names :
    (∀ items : List PyStr, ∀ s ∈ _unique_ordered items, pyStrip s = s ∧ s ≠ []) ∧
    (∀ items : List PyStr, (_unique_ordered items).Nodup) ∧
    (∀ items : List PyStr, _unique_ordered items = specGpuNameList items) ∧
    (∀ (system : String) (winNames linNames : List PyStr),
      system ≠ "Windows" → system ≠ "Linux" →
      get_gpu_names system winNames linNames = []) ∧
    (∀ (system : String) (winNames linNames : List PyStr),
      (∀ s ∈ get_gpu_names system winNames linNames, pyStrip s = s ∧ s ≠ []) ∧
      (get_gpu_names system winNames linNames).Nodup) := by
  have hmem : ∀ items : List PyStr, ∀ s ∈ _unique_ordered items,
      pyStrip s = s ∧ s ≠ [] :=
    fun items => mem_uniqueGo_strip items []
  have hnodup : ∀ items : List PyStr, (_unique_ordered items).Nodup :=
    fun items => uniqueGo_nodup items []
  refine ⟨hmem, hnodup, ?_, ?_, ?_⟩
  · intro items
    unfold _unique_ordered specGpuNameList
    rw [uniqueGo_eq_spec items []]
    congr 1
    have : ∀ a ∈ (items.map pyStrip).filter (fun v => v ≠ []),
        (decide (a ∉ ([] : List PyStr))) = true := by
      intro a _
      simp
    calc ((items.map pyStrip).filter (fun v => v ≠ [])).filter
          (fun v => v ∉ ([] : List PyStr))
        = ((items.map pyStrip).filter (fun v => v ≠ [])).filter (fun _ => true) :=
          List.filter_congr (by intro a ha; simp)
      _ = (items.map pyStrip).filter (fun v => v ≠ []) := List.filter_true _
  · intro system winNames linNames hw hl
    unfold get_gpu_names
    rw [if_neg (by simpa using hw), if_neg (by simpa using hl)]
  · intro system winNames linNames
    unfold get_gpu_names
    by_cases hw : system = "Windows"
    · rw [if_pos hw]
      exact ⟨hmem winNames, hnodup winNames⟩
    · rw [if_neg hw]
      by_cases hl : system = "Linux"
      · rw [if_pos hl]
        exact ⟨hmem linNames, hnodup linNames⟩
      · rw [if_neg hl]
        exact ⟨fun s hs => absurd hs (List.not_mem_nil s), List.nodup_nil⟩

/-- Witness for C8 at a concrete candidate list. -/
theorem C8_gpu_names_witness :
    (pyStrip (("a").toList) = ("a").toList ∧ ("a").toList ≠ []) ∧
    get_gpu_names "Darwin" [("x").toList] [("y").toList] = [] := by
  constructor
  · exact C8_gpu_names.1 [(" a ").toList, ("a").toList, ("").toList, ("b").toList]
      (("a").toList) (by decide)
  · exact C8_gpu_names.2.2.2.1 "Darwin" [("x").toList] [("y").toList]
      (by decide) (by decide)

theorem total_linux_some (lines : List PyStr) (pageSize physPages : Option Int) :
    _get_total_ram_bytes_linux (some lines) pageSize physPages =
      match totalScan lines with
      | .error e => .error e
      | .ok (some v) => .ok v
      | .ok none =>
        sysconfProduct pageSize physPages
          (.runtimeError "Unable to determine total RAM on Linux") := rfl

theorem free_linux_some (lines : List PyStr) (pageSize availPages : Option Int) :
    _get_free_ram_bytes_linux (some lines) pageSize availPages =
      match freeScan lines none none with
      | .error e => .error e
      | .ok (some av, _) => .ok av
      | .ok (none, some fr) => .ok fr
      | .ok (none, none) =>
        sysconfProduct pageSize availPages
          (.runtimeError "Unable to determine free RAM on Linux") := rfl

theorem totalScan_cons (l : PyStr) (rest : List PyStr) :
    totalScan (l :: rest) =
      if pyStartsWith memTotalKey l then fieldValue l
      else totalScan rest := rfl

theorem totalScan_skip (pre rest : List PyStr)
    (h : ∀ x ∈ pre, pyStartsWith memTotalKey x = false) :
    totalScan (pre ++ rest) = totalScan rest := by
  induction pre with
  | nil => rfl
  | cons l pre ih =>
    rw [List.cons_append, totalScan_cons,
      if_neg (by simp [h l (List.mem_cons_self _ _)])]
    exact ih (fun x hx => h x (List.mem_cons_of_mem _ hx))

/-- C3: the Linux `MemTotal` parser multiplies the integer value by 1024 for
unit `kb`, by 1024² for `mb`, by 1024³ for `gb`, and by 1024 for any
unrecognised unit; the witness instantiates this at the line
`MemTotal: 16777216 kB`, which yields exactly 17179869184. -/
theorem C3_total_ram_linux :
    (∀ (pre post : List PyStr) (l p0 p1 p2 : PyStr) (ps : List PyStr) (v : Int)
       (pageSize physPages : Option Int),
      (∀ x ∈ pre, pyStartsWith memTotalKey x = false) →
      pyStartsWith memTotalKey l = true →
      pySplit l = p0 :: p1 :: p2 :: ps →
      pyInt p1 = some v →
      _get_total_ram_bytes_linux (some (pre ++ l :: post)) pageSize physPages =
        .ok (v * unitScale (pyLower p2))) ∧
    unitScale (("kb").toList) = 1024 ∧
    unitScale (("mb").toList) = 1024 * 1024 ∧
    unitScale (("gb").toList) = 1024 * 1024 * 1024 ∧
    (∀ u : PyStr, u ≠ ("kb").toList → u ≠ ("mb").toList → u ≠ ("gb").toList →
      unitScale u = 1024) := by
  refine ⟨?_, by decide, by decide, by decide, ?_⟩
  · intro pre post l p0 p1 p2 ps v pageSize physPages hpre hl hsplit hint
    rw [total_linux_some, totalScan_skip pre (l :: post) hpre, totalScan_cons,
      if_pos hl]
    unfold fieldValue
    simp only [hsplit, hint]
  · intro u h1 h2 h3
    unfold unitScale
    rw [if_neg h1, if_neg h2, if_neg h3]

/-- Witness for C3 at the spec's concrete meminfo line. -/
theorem C3_total_ram_linux_witness :
    _get_total_ram_bytes_linux (some [("MemTotal: 16777216 kB").toList]) none none =
      .ok 17179869184 := by
  have h := C3_total_ram_linux.1 [] [] (("MemTotal: 16777216 kB").toList)
    (("MemTotal:").toList) (("16777216").toList) (("kB").toList) [] 16777216
    none none (by intro x hx; cases hx) (by decide) (by decide) (by decide)
  have hs : (16777216 : Int) * unitScale (pyLower (("kB").toList)) = 17179869184 := by
    decide
  rw [hs] at h
  simpa using h

theorem freeScan_cons (l : PyStr) (rest : List PyStr) (av fr : Option Int) :
    freeScan (l :: rest) av fr =
      if pyStartsWith memAvailableKey l then
        match fieldValue l with
        | .error e => .error e
        | .ok (some v) => .ok (some v, fr)
        | .ok none => freeScan rest av fr
      else if pyStartsWith memFreeKey l then
        match fieldValue l with
        | .error e => .error e
        | .ok (some v) => freeScan rest av (some v)
        | .ok none => freeScan rest av fr
      else freeScan rest av fr := rfl

theorem freeScan_append (xs ys : List PyStr) (fr : Option Int) :
    freeScan (xs ++ ys) none fr =
      match freeScan xs none fr with
      | .error e => .error e
      | .ok (some a, f) => .ok (some a, f)
      | .ok (none, f) => freeScan ys none f := by
  induction xs generalizing fr with
  | nil => rfl
  | cons l xs ih =>
    rw [List.cons_append, freeScan_cons, freeScan_cons]
    by_cases h1 : pyStartsWith memAvailableKey l
    · rw [if_pos h1, if_pos h1]
      cases hf : fieldValue l with
      | error e => rfl
      | ok o =>
        cases o with
        | some v => rfl
        | none => exact ih fr
    · rw [if_neg h1, if_neg h1]
      by_cases h2 : pyStartsWith memFreeKey l
      · rw [if_pos h2, if_pos h2]
        cases hf : fieldValue l with
        | error e => rfl
        | ok o =>
          cases o with
          | some v => exact ih (some v)
          | none => exact ih fr
      · rw [if_neg h2, if_neg h2]
        exact ih fr

theorem freeScan_no_keys (post : List PyStr) (av fr : Option Int)
    (h : ∀ x ∈ post, pyStartsWith memAvailableKey x = false ∧
      pyStartsWith memFreeKey x = false) :
    freeScan post av fr = .ok (av, fr) := by
  induction post with
  | nil => rfl
  | cons l post ih =>
    rw [freeScan_cons, if_neg (by simp [(h l (List.mem_cons_self _ _)).1]),
      if_neg (by simp [(h l (List.mem_cons_self _ _)).2])]
    exact ih (fun x hx => h x (List.mem_cons_of_mem _ hx))

/-- C4: the Linux free-RAM parser returns the `MemAvailable`-derived value
whenever a well-formed `MemAvailable` line is present, regardless of the
`MemFree` lines seen before it; it returns the `MemFree`-derived value when
only a `MemFree` line is present; and with no meminfo table at all it falls
back to `page_size × available_pages`. -/
theorem C4_free_ram_linux :
    (∀ (pre post : List PyStr) (l : PyStr) (fr0 : Option Int) (v : Int)
       (pageSize availPages : Option Int),
      freeScan pre none none = .ok (none, fr0) →
      pyStartsWith memAvailableKey l = true →
      fieldValue l = .ok (some v) →
      _get_free_ram_bytes_linux (some (pre ++ l :: post)) pageSize availPages =
        .ok v) ∧
    (∀ (pre post : List PyStr) (l : PyStr) (v : Int)
       (pageSize availPages : Option Int),
      freeScan pre none none = .ok (none, none) →
      pyStartsWith memAvailableKey l = false →
      pyStartsWith memFreeKey l = true →
      fieldValue l = .ok (some v) →
      (∀ x ∈ post, pyStartsWith memAvailableKey x = false ∧
        pyStartsWith memFreeKey x = false) →
      _get_free_ram_bytes_linux (some (pre ++ l :: post)) pageSize availPages =
        .ok v) ∧
    (∀ p a : Int,
      _get_free_ram_bytes_linux none (some p) (some a) = .ok (p * a)) := by
  refine ⟨?_, ?_, ?_⟩
  · intro pre post l fr0 v pageSize availPages hpre hl hfv
    rw [free_linux_some, freeScan_append pre (l :: post) none, hpre]
    show (match freeScan (l :: post) none fr0 with
      | Except.error e => Except.error e
      | Except.ok (some av, _) => Except.ok av
      | Except.ok (none, some fr) => Except.ok fr
      | Except.ok (none, none) =>
        sysconfProduct pageSize availPages
          (PyExn.runtimeError "Unable to determine free RAM on Linux")) = Except.ok v
    rw [freeScan_cons, if_pos hl, hfv]
  · intro pre post l v pageSize availPages hpre hnav hl hfv hpost
    rw [free_linux_some, freeScan_append pre (l :: post) none, hpre]
    show (match freeScan (l :: post) none none with
      | Except.error e => Except.error e
      | Except.ok (some av, _) => Except.ok av
      | Except.ok (none, some fr) => Except.ok fr
      | Except.ok (none, none) =>
        sysconfProduct pageSize availPages
          (PyExn.runtimeError "Unable to determine free RAM on Linux")) = Except.ok v
    rw [freeScan_cons, if_neg (by simp [hnav]), if_pos hl, hfv]
    show (match freeScan post none (some v) with
      | Except.error e => Except.error e
      | Except.ok (some av, _) => Except.ok av
      | Except.ok (none, some fr) => Except.ok fr
      | Except.ok (none, none) =>
        sysconfProduct pageSize availPages
          (PyExn.runtimeError "Unable to determine free RAM on Linux")) = Except.ok v
    rw [freeScan_no_keys post none (some v) hpost]
  · intro p a
    rfl

/-- Witness for C4: with a `MemFree` line before a `MemAvailable` line, the
available value 3 kB wins; the page-size fallback multiplies. -/
theorem C4_free_ram_linux_witness :
    _get_free_ram_bytes_linux
      (some [("MemFree: 5 kB").toList, ("MemAvailable: 3 kB").toList])
      none none = .ok 3072 ∧
    _get_free_ram_bytes_linux none (some 4096) (some 1000) = .ok 4096000 := by
  constructor
  · have h := C4_free_ram_linux.1 [("MemFree: 5 kB").toList] []
      (("MemAvailable: 3 kB").toList) (some 5120) 3072 none none
      (by decide) (by decide) (by decide)
    simpa using h
  · have h := C4_free_ram_linux.2.2 4096 1000
    simpa using h

/-- C9: on an OS that is neither Windows nor Linux, both RAM getters attempt
the `page_size × page-count` sysconf fallback; when that query fails they
raise the unsupported-OS error (rather than returning any default), and when
it succeeds they return the product.  These are the only modelled inspectors
whose result type carries an exception: every other inspector in this
development is a total function. -/
theorem C9_ram_unsupported_os (system : String)
    (hw : system ≠ "Windows") (hl : system ≠ "Linux")
    (winT winF : Except PyExn Int) (meminfoT meminfoF : Option (List PyStr))
    (pageSize physPages availPages : Option Int) :
    ((pageSize = none ∨ physPages = none) →
      get_total_ram_bytes system winT meminfoT pageSize physPages =
        .error (.notImplementedError ("Unsupported OS: " ++ system))) ∧
    (∀ p n : Int, pageSize = some p → physPages = some n →
      get_total_ram_bytes system winT meminfoT pageSize physPages = .ok (p * n)) ∧
    ((pageSize = none ∨ availPages = none) →
      get_free_ram_bytes system winF meminfoF pageSize availPages =
        .error (.notImplementedError ("Unsupported OS: " ++ system))) ∧
    (∀ p a : Int, pageSize = some p → availPages = some a →
      get_free_ram_bytes system winF meminfoF pageSize availPages = .ok (p * a)) := by
  have ht : get_total_ram_bytes system winT meminfoT pageSize physPages =
      sysconfProduct pageSize physPages
        (.notImplementedError ("Unsupported OS: " ++ system)) := by
    unfold get_total_ram_bytes
    rw [if_neg hw, if_neg hl]
  have hf : get_free_ram_bytes system winF meminfoF pageSize availPages =
      sysconfProduct pageSize availPages
        (.notImplementedError ("Unsupported OS: " ++ system)) := by
    unfold get_free_ram_bytes
    rw [if_neg hw, if_neg hl]
  refine ⟨?_, ?_, ?_, ?_⟩
  · intro hcase
    rw [ht]
    rcases hcase with rfl | h2
    · rfl
    · rw [h2]
      unfold sysconfProduct
      cases pageSize <;> rfl
  · intro p n hp hn
    rw [ht, hp, hn]
    rfl
  · intro hcase
    rw [hf]
    rcases hcase with rfl | h2
    · rfl
    · rw [h2]
      unfold sysconfProduct
      cases pageSize <;> rfl
  · intro p a hp ha
    rw [hf, hp, ha]
    rfl

/-- Witness for C9 on a concrete non-Windows, non-Linux system. -/
theorem C9_ram_unsupported_os_witness :
    get_total_ram_bytes "Darwin" (.ok 1) none none none =
      .error (.notImplementedError "Unsupported OS: Darwin") ∧
    get_free_ram_bytes "Darwin" (.ok 1) none (some 4096) (some 2) = .ok 8192 := by
  constructor
  · have h1 := (C9_ram_unsupported_os "Darwin" (by decide) (by decide)
      (.ok 1) (.ok 1) none none none none none).1 (Or.inl rfl)
    simpa using h1
  · have h2 := (C9_ram_unsupported_os "Darwin" (by decide) (by decide)
      (.ok 1) (.ok 1) none none (some 4096) none (some 2)).2.2.2 4096 2 rfl rfl
    simpa using h2

theorem lastOr_cons (v : PyStr) (l : List PyStr) (d : Option PyStr) :
    lastOr (v :: l) d = lastOr l (some v) := by
  cases l with
  | nil => rfl
  | cons w l =>
    rw [lastOr, lastOr, List.getLast?_cons_cons]
    cases hg : (w :: l).getLast? with
    | some x => rfl
    | none => simp at hg

theorem foldlM_step_no_flush (b : List PyStr) : ∀ st : CpuSt,
    (∀ l ∈ b, classifyCpuLine l ≠ .blank ∧ classifyCpuLine l ≠ .err) →
    b.foldlM stepCpuLine st = some
      ⟨st.pairs,
       lastOr ((b.map classifyCpuLine).filterMap physVal) st.phys,
       lastOr ((b.map classifyCpuLine).filterMap coreVal) st.core⟩ := by
  induction b with
  | nil => intro st _; rfl
  | cons l b ih =>
    intro st h
    have hl := h l (List.mem_cons_self _ _)
    have htail : ∀ x ∈ b, classifyCpuLine x ≠ .blank ∧ classifyCpuLine x ≠ .err :=
      fun x hx => h x (List.mem_cons_of_mem _ hx)
    rw [List.foldlM_cons]
    cases hc : classifyCpuLine l with
    | blank => exact absurd hc hl.1
    | err => exact absurd hc hl.2
    | other =>
      have hstep : stepCpuLine st l = some st := by
        unfold stepCpuLine
        rw [hc]
      rw [hstep]
      show b.foldlM stepCpuLine st = _
      rw [ih st htail]
      simp only [List.map_cons, hc, List.filterMap_cons]
      rfl
    | phys v =>
      have hstep : stepCpuLine st l = some ⟨st.pairs, some v, st.core⟩ := by
        unfold stepCpuLine
        rw [hc]
      rw [hstep]
      show b.foldlM stepCpuLine ⟨st.pairs, some v, st.core⟩ = _
      rw [ih ⟨st.pairs, some v, st.core⟩ htail]
      simp only [List.map_cons, hc, List.filterMap_cons, physVal, coreVal, lastOr_cons]
    | core v =>
      have hstep : stepCpuLine st l = some ⟨st.pairs, st.phys, some v⟩ := by
        unfold stepCpuLine
        rw [hc]
      rw [hstep]
      show b.foldlM stepCpuLine ⟨st.pairs, st.phys, some v⟩ = _
      rw [ih ⟨st.pairs, st.phys, some v⟩ htail]
      simp only [List.map_cons, hc, List.filterMap_cons, physVal, coreVal, lastOr_cons]

theorem blockYields_fold (b : List PyStr) (pc : PyStr × PyStr) (st : CpuSt)
    (h : blockYields b pc) :
    b.foldlM stepCpuLine st = some ⟨st.pairs, some pc.1, some pc.2⟩ := by
  rw [foldlM_step_no_flush b st h.2.2, h.1, h.2.1]
  rfl

theorem joinBlocks_fold : ∀ (bs : List (List PyStr)) (ps : List (PyStr × PyStr))
    (st : CpuSt), List.Forall₂ blockYields bs ps → bs ≠ [] →
    ∃ st', (joinBlocks bs).foldlM stepCpuLine st = some st' ∧
      cpuFlush st' = ps.foldl setAdd st.pairs := by
  intro bs
  induction bs with
  | nil => intro ps st _ hne; exact absurd rfl hne
  | cons b bs ih =>
    intro ps st h _
    cases h with
    | cons hbp htail =>
      rename_i pc ps'
      cases bs with
      | nil =>
        cases htail
        refine ⟨⟨st.pairs, some pc.1, some pc.2⟩, ?_, ?_⟩
        · show b.foldlM stepCpuLine st = _
          exact blockYields_fold b pc st hbp
        · show cpuFlush ⟨st.pairs, some pc.1, some pc.2⟩ = setAdd st.pairs pc
          unfold cpuFlush
          rfl
      | cons b2 bs2 =>
        have hjoin : joinBlocks (b :: b2 :: bs2) =
            b ++ ([] : PyStr) :: joinBlocks (b2 :: bs2) := rfl
        rw [hjoin, List.foldlM_append, blockYields_fold b pc st hbp]
        have hblank : stepCpuLine ⟨st.pairs, some pc.1, some pc.2⟩ ([] : PyStr) =
            some ⟨setAdd st.pairs pc, none, none⟩ := by
          unfold stepCpuLine classifyCpuLine
          rfl
        obtain ⟨st', heq, hflush⟩ :=
          ih ps' ⟨setAdd st.pairs pc, none, none⟩ htail (by simp)
        refine ⟨st', ?_, ?_⟩
        · show (([] : PyStr) :: joinBlocks (b2 :: bs2)).foldlM stepCpuLine
            ⟨st.pairs, some pc.1, some pc.2⟩ = some st'
          rw [List.foldlM_cons, hblank]
          exact heq
        · rw [hflush]
          rfl

theorem setAdd_toFinset (acc : List (PyStr × PyStr)) (pc : PyStr × PyStr) :
    (setAdd acc pc).toFinset = insert pc acc.toFinset := by
  unfold setAdd
  by_cases hm : pc ∈ acc
  · rw [if_pos hm, Finset.insert_eq_self.mpr (List.mem_toFinset.mpr hm)]
  · rw [if_neg hm, List.toFinset_cons]

theorem setAdd_nodup (acc : List (PyStr × PyStr)) (pc : PyStr × PyStr)
    (h : acc.Nodup) : (setAdd acc pc).Nodup := by
  unfold setAdd
  by_cases hm : pc ∈ acc
  · rw [if_pos hm]; exact h
  · rw [if_neg hm]; exact List.nodup_cons.mpr ⟨hm, h⟩

theorem foldl_setAdd_toFinset (ps : List (PyStr × PyStr)) :
    ∀ acc : List (PyStr × PyStr),
    (ps.foldl setAdd acc).toFinset = acc.toFinset ∪ ps.toFinset := by
  induction ps with
  | nil => intro acc; simp
  | cons pc ps ih =>
    intro acc
    rw [List.foldl_cons, ih (setAdd acc pc), setAdd_toFinset,
      List.toFinset_cons, Finset.insert_union, Finset.union_insert]

theorem foldl_setAdd_nodup (ps : List (PyStr × PyStr)) :
    ∀ acc : List (PyStr × PyStr), acc.Nodup →
    (ps.foldl setAdd acc).Nodup := by
  induction ps with
  | nil => intro acc h; exact h
  | cons pc ps ih =>
    intro acc h
    rw [List.foldl_cons]
    exact ih (setAdd acc pc) (setAdd_nodup acc pc h)

/-- C2: for cpuinfo content made of processor blocks separated by blank
lines, where every block carries exactly one `physical id` and one `core id`
field, the Linux physical-core step returns exactly the number of distinct
`(physical_id, core_id)` pairs. -/
theorem C2_cpuinfo_distinct_pairs (bs : List (List PyStr))
    (ps : List (PyStr × PyStr)) (h : List.Forall₂ blockYields bs ps)
    (hne : ps ≠ []) :
    linuxCpuinfoPairsStep (joinBlocks bs) = some ps.toFinset.card := by
  have hbs : bs ≠ [] := by
    intro hc
    subst hc
    cases h
    exact hne rfl
  obtain ⟨st', heq, hflush⟩ := joinBlocks_fold bs ps ⟨[], none, none⟩ h hbs
  unfold linuxCpuinfoPairsStep
  rw [heq]
  have htf : (cpuFlush st').toFinset = ps.toFinset := by
    rw [hflush, foldl_setAdd_toFinset]
    simp
  have hnd : (cpuFlush st').Nodup := by
    rw [hflush]
    exact foldl_setAdd_nodup ps [] List.nodup_nil
  have hlen : (cpuFlush st').length = ps.toFinset.card := by
    rw [← htf]
    exact (List.toFinset_card_of_nodup hnd).symm
  have hpos : 0 < ps.toFinset.card := by
    cases ps with
    | nil => exact absurd rfl hne
    | cons pc ps =>
      exact Finset.card_pos.mpr ⟨pc, List.mem_toFinset.mpr (List.mem_cons_self _ _)⟩
  have hflne : cpuFlush st' ≠ [] := by
    intro hc
    rw [hc] at hlen
    simp at hlen
    omega
  show (if cpuFlush st' = [] then none else some (cpuFlush st').length) =
    some ps.toFinset.card
  rw [if_neg hflne, hlen]

/-- Witness for C2: two processor blocks with pairs (0,0) and (0,1) give a
count of 2. -/
theorem C2_cpuinfo_distinct_pairs_witness :
    linuxCpuinfoPairsStep (joinBlocks
      [[("physical id\t: 0").toList, ("core id\t: 0").toList],
       [("physical id\t: 0").toList, ("core id\t: 1").toList]]) = some 2 := by
  have h := C2_cpuinfo_distinct_pairs
    [[("physical id\t: 0").toList, ("core id\t: 0").toList],
     [("physical id\t: 0").toList, ("core id\t: 1").toList]]
    [((("0").toList), (("0").toList)), ((("0").toList), (("1").toList))]
    (List.Forall₂.cons ⟨by decide, by decide, by decide⟩
      (List.Forall₂.cons ⟨by decide, by decide, by decide⟩ List.Forall₂.nil))
    (by decide)
  have hc : ([((("0").toList), (("0").toList)),
      ((("0").toList), (("1").toList))] : List (PyStr × PyStr)).toFinset.card = 2 := by
    decide
  rw [hc] at h
  exact h
